import Mathlib

/-!
Verification of the authenticated request pipeline of `realm-js`
(`realm-web`'s `Authenticator` and query-string utilities, and
`realm-network-transport`'s `DefaultNetworkTransport`).

JavaScript strings are modelled as lists of Unicode scalar values
(`Str := List Char`); JSON values as the inductive `JValue`; promises
returning-or-rejecting as `Except`.  Platform builtins used by the source
(`encodeURIComponent`, `decodeURIComponent`, the Fetch API's header lookup)
are modelled after their ECMAScript / WHATWG specifications, restricted to
the well-formed inputs the claims exercise.
-/

/-- JavaScript strings, modelled as lists of Unicode scalar values. -/
abbrev Str := List Char

/-- Coerce a Lean string literal into the `Str` model. -/
def jstr (s : String) : Str := s.data

/-- Uppercase hexadecimal digit for `n < 16` (as produced by the platform's
percent-encoder). -/
def hexDigit (n : Nat) : Char :=
  if n < 10 then Char.ofNat ('0'.toNat + n) else Char.ofNat ('A'.toNat + n - 10)

/-- Value of a hexadecimal digit character, accepting both cases
(as accepted by the platform's percent-decoder). -/
def hexDigitVal (c : Char) : Option Nat :=
  if '0' ≤ c && c ≤ '9' then some (c.toNat - '0'.toNat)
  else if 'A' ≤ c && c ≤ 'F' then some (c.toNat - 'A'.toNat + 10)
  else if 'a' ≤ c && c ≤ 'f' then some (c.toNat - 'a'.toNat + 10)
  else none

/-- Percent-escape of one byte: `%XY` with uppercase hex digits. -/
def pctByte (b : Nat) : Str :=
  ['%', hexDigit (b / 16), hexDigit (b % 16)]

/-- UTF-8 byte sequence of a Unicode code point. -/
def utf8Bytes (n : Nat) : List Nat :=
  if n < 0x80 then [n]
  else if n < 0x800 then [0xC0 + n / 0x40, 0x80 + n % 0x40]
  else if n < 0x10000 then
    [0xE0 + n / 0x1000, 0x80 + (n / 0x40) % 0x40, 0x80 + n % 0x40]
  else
    [0xF0 + n / 0x40000, 0x80 + (n / 0x1000) % 0x40, 0x80 + (n / 0x40) % 0x40,
      0x80 + n % 0x40]

/-- Characters left unescaped by `encodeURIComponent`
(ECMA-262: `A`-`Z`, `a`-`z`, `0`-`9`, and the marks). -/
def isUnreservedChar (c : Char) : Bool :=
  ('A' ≤ c && c ≤ 'Z') || ('a' ≤ c && c ≤ 'z') || ('0' ≤ c && c ≤ '9') ||
    c == '-' || c == '_' || c == '.' || c == '!' || c == '~' || c == '*' ||
    c == '\'' || c == '(' || c == ')'

/-- Modelled from the spec ("percent-encoded"): the ECMAScript builtin
`encodeURIComponent`, which keeps unreserved characters and percent-escapes
the UTF-8 bytes of every other character. -/
def encodeChar (c : Char) : Str :=
  if isUnreservedChar c then [c]
  else ((utf8Bytes c.toNat).map pctByte).flatten

/-- Modelled from the spec: ECMAScript `encodeURIComponent` on a whole string. -/
def encodeURIComponent (s : Str) : Str :=
  (s.map encodeChar).flatten

/-- First decoding stage of `decodeURIComponent`: turn every `%XY` escape into
a byte (`Sum.inr`), pass every other character through (`Sum.inl`).
A malformed escape yields `none`, modelling the builtin's `URIError`. -/
def pctTokens : Str → Option (List (Sum Char Nat))
  | [] => some []
  | c :: rest =>
    if c = '%' then
      match rest with
      | a :: b :: rest2 =>
        match hexDigitVal a, hexDigitVal b with
        | some ha, some hb => (pctTokens rest2).map (fun ts => Sum.inr (ha * 16 + hb) :: ts)
        | _, _ => none
      | _ => none
    else (pctTokens rest).map (fun ts => Sum.inl c :: ts)

/-- Classification of one token for UTF-8 assembly: a pass-through character,
or a byte split by its leading bits into a single-byte sequence, a two-, three-
or four-byte sequence leader (carrying its value bits), or a continuation
byte. -/
inductive Utf8Tok where
  | raw (c : Char)
  | ascii (b : Nat)
  | cont (v : Nat)
  | lead2 (v : Nat)
  | lead3 (v : Nat)
  | lead4 (v : Nat)

/-- Classify one token by the byte ranges of UTF-8. -/
def classifyByteTok : Sum Char Nat → Utf8Tok
  | Sum.inl c => .raw c
  | Sum.inr b =>
    if b < 0x80 then .ascii b
    else if b < 0xC0 then .cont (b - 0x80)
    else if b < 0xE0 then .lead2 (b - 0xC0)
    else if b < 0xF0 then .lead3 (b - 0xE0)
    else .lead4 (b - 0xF0)

/-- Second decoding stage of `decodeURIComponent`: assemble classified tokens
into characters, passing raw characters through; any byte sequence not
matching the UTF-8 grammar yields `none`, modelling the builtin's
`URIError`. -/
def utf8Assemble : List Utf8Tok → Option Str
  | [] => some []
  | .raw c :: ts => (utf8Assemble ts).map (fun s => c :: s)
  | .ascii b :: ts => (utf8Assemble ts).map (fun s => Char.ofNat b :: s)
  | .lead2 v :: .cont v2 :: ts =>
    (utf8Assemble ts).map (fun s => Char.ofNat (v * 0x40 + v2) :: s)
  | .lead3 v :: .cont v2 :: .cont v3 :: ts =>
    (utf8Assemble ts).map (fun s => Char.ofNat (v * 0x1000 + v2 * 0x40 + v3) :: s)
  | .lead4 v :: .cont v2 :: .cont v3 :: .cont v4 :: ts =>
    (utf8Assemble ts).map (fun s =>
      Char.ofNat (v * 0x40000 + v2 * 0x1000 + v3 * 0x40 + v4) :: s)
  | _ => none

/-- Modelled from the spec: ECMAScript `decodeURIComponent`; `none` models a
thrown `URIError` on malformed input. -/
def decodeURIComponent (s : Str) : Option Str :=
  (pctTokens s).bind (fun ts => utf8Assemble (ts.map classifyByteTok))

/-- Scalar query-parameter values of `encodeQueryString`
(`string | number | boolean`; numbers restricted to integers). -/
inductive Scalar where
  | str (s : Str)
  | num (n : Int)
  | bool (b : Bool)
deriving DecidableEq

/-- JavaScript `ToString` on a scalar, as applied by `encodeURIComponent`
to non-string arguments. -/
def scalarToString : Scalar → Str
  | .str s => s
  | .num n => jstr (toString n)
  | .bool b => if b then jstr "true" else jstr "false"

/-- Source `encodeQueryString` (src/packages/realm-web/src/utils/string.ts):
filter out `undefined` values (`none`), percent-encode each remaining value,
render `key=value` pairs and join them with `&`.  Keys are not encoded. -/
def encodeQueryString (params : List (Str × Option Scalar)) : Str :=
  let filteredParams := params.filterMap (fun p => p.2.map (fun v => (p.1, v)))
  List.intercalate ['&']
    (filteredParams.map (fun p => p.1 ++ '=' :: encodeURIComponent (scalarToString p.2)))

/-- JavaScript property assignment `obj[k] = v` on an object represented as an
association list: replace the value at an existing key, else append. -/
def insertEntry (l : List (Str × Str)) (k v : Str) : List (Str × Str) :=
  if l.any (fun p => p.1 == k) then
    l.map (fun p => if p.1 == k then (k, v) else p)
  else l ++ [(k, v)]

/-- JavaScript `Object.fromEntries`: build an object from key/value pairs,
later pairs overriding earlier ones. -/
def fromEntries (l : List (Str × Str)) : List (Str × Str) :=
  l.foldl (fun acc p => insertEntry acc p.1 p.2) []

/-- Property lookup on an object represented as an association list. -/
def lookupEntry (l : List (Str × Str)) (k : Str) : Option Str :=
  (l.find? (fun p => p.1 == k)).map (fun p => p.2)

/-- Value of the last pair carrying key `k`, if any (the value
`Object.fromEntries` ends up storing under `k`). -/
def lastAssign (l : List (Str × Str)) (k : Str) : Option Str :=
  match l with
  | [] => none
  | p :: t =>
    match lastAssign t k with
    | some v => some v
    | none => if p.1 == k then some p.2 else none

/-- JavaScript `Array.prototype.map` with a callback that may throw: the first
failure (`none`) escapes the whole map. -/
def mapOption {α β : Type} (f : α → Option β) : List α → Option (List β)
  | [] => some []
  | a :: t => (f a).bind (fun b => (mapOption f t).map (fun r => b :: r))

/-- JavaScript array destructuring `[k, v] = parts` followed by
`[k, decodeURIComponent(v)]`: a missing element is `undefined`, and
`decodeURIComponent(undefined)` coerces its argument to the string
`"undefined"` before decoding.  `none` models a thrown `URIError`. -/
def decodePair (parts : List Str) : Option (Str × Str) :=
  match parts with
  | [] => (decodeURIComponent (jstr "undefined")).map (fun v => (jstr "undefined", v))
  | [k] => (decodeURIComponent (jstr "undefined")).map (fun v => (k, v))
  | k :: v :: _ => (decodeURIComponent v).map (fun w => (k, w))

/-- Source `decodeQueryString` (src/packages/realm-web/src/utils/string.ts):
split on `&`, split each component on `=`, decode the value side only, and
collect the pairs with `Object.fromEntries`.  `none` models a thrown
`URIError` escaping the map. -/
def decodeQueryString (s : Str) : Option (List (Str × Str)) :=
  (mapOption (fun kvp => decodePair (kvp.splitOn '=')) (s.splitOn '&')).map fromEntries

/-- Source `encodeUrl` (src/packages/realm-web/src/utils/string.ts): append
`?` and the encoded query string only when the latter is non-empty. -/
def encodeUrl (url : Str) (query : List (Str × Option Scalar)) : Str :=
  let queryString := encodeQueryString query
  if queryString.length > 0 then url ++ '?' :: queryString else url

/-- JSON-ish JavaScript values, as carried by request/response bodies and
credential payloads.  `undefined` is distinct from `null` (property access on
a missing key yields `undefined`, and destructuring defaults fire on it). -/
inductive JValue where
  | undefined
  | null
  | bool (b : Bool)
  | num (n : Int)
  | str (s : Str)
  | obj (fields : List (Str × JValue))
  | arr (elems : List JValue)

/-- JavaScript property access on an object: the value at the key, or
`undefined` when the key is missing. -/
def lookupField (fields : List (Str × JValue)) (k : Str) : JValue :=
  match fields.find? (fun p => p.1 == k) with
  | some p => p.2
  | none => JValue.undefined

/-- JavaScript `typeof v === "string"`. -/
def isString : JValue → Bool
  | .str _ => true
  | _ => false

/-- Request descriptor of the network transport
(src/packages/realm-network-transport/src/NetworkTransport.ts `Request`). -/
structure Request where
  method : Str
  url : Str
  body : Option JValue
  headers : Option (List (Str × Str))
  timeoutMs : Option Nat

/-- The HTTP capability's response object (the Fetch API `Response` surface the
source consumes): status, status text, `ok` flag, headers, and the results of
`json()` / `text()`, each of which may reject with a message. -/
structure Response where
  status : Nat
  statusText : Str
  ok : Bool
  headers : List (Str × Str)
  json : Except Str JValue
  text : Except Str Str

/-- Modelled from the spec: the Fetch API's `Headers.get`, a case-insensitive
lookup returning `null` (`none`) for an absent header. -/
def headersGet (hs : List (Str × Str)) (k : Str) : Option Str :=
  (hs.find? (fun p => p.1.map Char.toLower == k.map Char.toLower)).map (fun p => p.2)

/-- Errors thrown inside the transport: `mongoDBRealm` models the structured
`MongoDBRealmError` (modelled from the spec: the API-error class is not under
src/; it carries method, URL, status code, status text and the parsed error
payload), `plain` models a generic `Error` carrying only a message. -/
inductive ThrownError where
  | mongoDBRealm (method url : Str) (statusCode : Nat) (statusText : Str) (payload : JValue)
  | plain (message : Str)

/-- Decimal rendering of a number, as interpolated into error messages. -/
def natToStr (n : Nat) : Str := (toString n).data

/-- The `try` block of `DefaultNetworkTransport.fetchAndParse`
(src/packages/realm-network-transport/src/NetworkTransport.ts): classify the
response of the underlying call by `ok` flag and `content-type` header.
`fetchResult` is the settled underlying call: `.error msg` is an exception
thrown while performing it. -/
def tryFetchAndParse (request : Request) (fetchResult : Except Str Response) :
    Except ThrownError JValue :=
  match fetchResult with
  | .error msg => .error (.plain msg)
  | .ok response =>
    let contentType := headersGet response.headers (jstr "content-type")
    if response.ok then
      match contentType with
      | none => .ok .null
      | some ct =>
        if (jstr "application/json").isPrefixOf ct then
          match response.json with
          | .ok value => .ok value
          | .error msg => .error (.plain msg)
        else .error (.plain (jstr "Expected an empty or a JSON response"))
    else
      match contentType with
      | some ct =>
        if (jstr "application/json").isPrefixOf ct then
          match response.json with
          | .ok payload =>
            .error (.mongoDBRealm request.method request.url response.status
              response.statusText payload)
          | .error msg => .error (.plain msg)
        else
          .error (.plain (jstr "Unexpected status code (" ++ natToStr response.status ++
            jstr " " ++ response.statusText ++ jstr ")"))
      | none =>
        .error (.plain (jstr "Unexpected status code (" ++ natToStr response.status ++
          jstr " " ++ response.statusText ++ jstr ")"))

/-- Source `DefaultNetworkTransport.fetchAndParse`: the `try` block above plus
its `catch`, which rethrows a `MongoDBRealmError` unchanged and wraps any other
exception into `Request failed (METHOD URL): message`. -/
def fetchAndParse (request : Request) (fetchResult : Except Str Response) :
    Except ThrownError JValue :=
  match tryFetchAndParse request fetchResult with
  | .ok value => .ok value
  | .error (.mongoDBRealm m u s st p) => .error (.mongoDBRealm m u s st p)
  | .error (.plain message) =>
    .error (.plain (jstr "Request failed (" ++ request.method ++ jstr " " ++
      request.url ++ jstr "): " ++ message))

/-- The raw result `fetchWithCallbacks` hands to `handler.onSuccess`:
status code, flattened headers, and the undecoded body text. -/
structure CallbackResponse where
  statusCode : Nat
  headers : List (Str × Str)
  body : Str

/-- The `ResponseHandler` consumed by `fetchWithCallbacks`. -/
structure ResponseHandler (α : Type) where
  onSuccess : CallbackResponse → α
  onError : Str → α

/-- Source `DefaultNetworkTransport.fetchWithCallbacks`: resolve the underlying
call, flatten the headers with `forEach` into a plain mapping, read the raw
body text, and hand the triple to `onSuccess`; any failure of the call itself
(or of reading the body) goes to `onError` unchanged. -/
def fetchWithCallbacks {α : Type} (request : Request) (fetchResult : Except Str Response)
    (handler : ResponseHandler α) : α :=
  match fetchResult with
  | .error e => handler.onError e
  | .ok response =>
    match response.text with
    | .error e => handler.onError e
    | .ok decodedBody =>
      handler.onSuccess
        { statusCode := response.status
          headers := fromEntries response.headers
          body := decodedBody }

/-- Bookkeeping for `createTimeoutSignal`: whether an `AbortController` was
constructed, and the delay of the still-pending `setTimeout` firing `abort`
(`none` when no timer is pending). -/
structure TimeoutSignal where
  aborterCreated : Bool
  timerDelay : Option Nat

/-- Source `DefaultNetworkTransport.createTimeoutSignal`: for a numeric
`timeoutMs`, construct an `AbortController` and arm a timer that fires `abort`
after that many milliseconds, returning a `cancelTimeout` action clearing the
timer; otherwise no controller, no timer, and a no-op cancel. -/
def createTimeoutSignal (timeoutMs : Option Nat) : TimeoutSignal × (TimeoutSignal → TimeoutSignal) :=
  match timeoutMs with
  | some ms =>
    ({ aborterCreated := true, timerDelay := some ms },
      fun s => { s with timerDelay := none })
  | none =>
    ({ aborterCreated := false, timerDelay := none }, fun s => s)

/-- Source `DefaultNetworkTransport.fetch` (the private wrapper): create the
timeout signal from the request, perform the underlying call, and — in a
`finally` — run `cancelTimeout` whether the call succeeded or threw.  Returns
the settled call together with the final timer state. -/
def transportFetch (request : Request) (callResult : Except Str Response) :
    Except Str Response × TimeoutSignal :=
  let signalPair := createTimeoutSignal request.timeoutMs
  (callResult, signalPair.2 signalPair.1)

/-- A user object, only its identity is relevant to this core. -/
structure User where
  id : Str

/-- Credentials (src/packages/realm-web/src/Credentials.ts surface visible to
the core): a provider type tag, a provider name, and an arbitrary payload. -/
structure Credentials where
  providerType : Str
  providerName : Str
  payload : List (Str × JValue)

/-- The session returned by `authenticate`.  The TypeScript declaration types
`refreshToken` as `string | null`, but the source performs no runtime check on
it, so the model carries the raw value. -/
structure AuthResponse where
  userId : Str
  accessToken : Str
  refreshToken : JValue

/-- Token type recorded on the login request descriptor. -/
inductive TokenType where
  | none
  | access
  | refresh
deriving DecidableEq

/-- The request descriptor `authenticate` hands to `fetcher.fetchJSON` on the
direct login path. -/
structure LoginRequest where
  method : Str
  url : Str
  body : List (Str × JValue)
  tokenType : TokenType
  user : Option User

/-- Outcome of one `authenticate` call: either full delegation to the OAuth2
flow coordinator (`oauth2.initiate` + `OAuth2Helper.decodeAuthInfo`, outside
src/), or the direct login POST together with the result of validating the
decoded login response. -/
inductive AuthOutcome where
  | oauth2Flow
  | directLogin (request : LoginRequest) (result : Except Str AuthResponse)

/-- Environment resolved during `authenticate`'s direct path: the provider
login URL built from the app URL, and the decoded JSON of the login POST. -/
structure AuthEnv where
  loginUrl : Str
  loginResponse : List (Str × JValue)

/-- Source `Authenticator.authenticate`
(src/packages/realm-web/src/Authenticator.ts): delegate to the OAuth2 flow
when the provider type starts with `"oauth2"` and the payload carries a string
`redirectUrl`; otherwise POST the payload to the login URL (with `link=true`
and token type `access` exactly when linking) and validate the response
(`user_id` and `access_token` must be strings, `refresh_token` defaults to
`null` when `undefined`). -/
def authenticate (env : AuthEnv) (credentials : Credentials) (linkWithUser : Option User) :
    AuthOutcome :=
  if (jstr "oauth2").isPrefixOf credentials.providerType
      && isString (lookupField credentials.payload (jstr "redirectUrl")) then
    .oauth2Flow
  else
    let request : LoginRequest :=
      { method := jstr "POST"
        url := encodeUrl env.loginUrl
          [(jstr "link", match linkWithUser with | some _ => some (.bool true) | none => none)]
        body := credentials.payload
        tokenType := match linkWithUser with | some _ => .access | none => TokenType.none
        user := linkWithUser }
    let userId := lookupField env.loginResponse (jstr "user_id")
    let accessToken := lookupField env.loginResponse (jstr "access_token")
    let refreshToken :=
      match lookupField env.loginResponse (jstr "refresh_token") with
      | .undefined => JValue.null
      | v => v
    .directLogin request
      (match userId with
      | .str uid =>
        match accessToken with
        | .str tok => .ok { userId := uid, accessToken := tok, refreshToken := refreshToken }
        | _ => .error (jstr "Expected an access token in the response")
      | _ => .error (jstr "Expected a user id in the response"))

/-- Spec-side predicate (claim wording): is this value a string or `null`? -/
def isStringOrNull : JValue → Bool
  | .str _ => true
  | .null => true
  | _ => false

/-- Token form of one character after `encodeURIComponent`: the character
itself when unreserved, otherwise its UTF-8 bytes. -/
def tokensOfChar (c : Char) : List (Sum Char Nat) :=
  if isUnreservedChar c then [Sum.inl c] else (utf8Bytes c.toNat).map Sum.inr

/-- Fixture: a plain GET request without timeout. -/
def reqGet : Request :=
  { method := jstr "GET", url := jstr "https://x/y", body := none, headers := none,
    timeoutMs := none }

/-- Fixture: a 200 response with no content-type header. -/
def respEmptyOk : Response :=
  { status := 200, statusText := jstr "OK", ok := true, headers := [],
    json := .error (jstr "Unexpected end of JSON input"), text := .ok [] }

/-- Fixture: a 401 JSON error response. -/
def resp401 : Response :=
  { status := 401, statusText := jstr "Unauthorized", ok := false,
    headers := [(jstr "content-type", jstr "application/json")],
    json := .ok (.obj [(jstr "error", .str (jstr "invalid session"))]),
    text := .ok (jstr "invalid session body") }

/-- Fixture: a 404 response with a plain-text body. -/
def respText : Response :=
  { status := 404, statusText := jstr "Not Found", ok := false,
    headers := [(jstr "server", jstr "nginx")],
    json := .error (jstr "not json"), text := .ok (jstr "plain body") }

/-- Fixture: a response handler recording the success value. -/
def probeHandler : ResponseHandler (Option CallbackResponse) :=
  { onSuccess := some, onError := fun _ => none }

/-- Fixture: email/password credentials. -/
def credUserPass : Credentials :=
  { providerType := jstr "local-userpass", providerName := jstr "local-userpass",
    payload := [(jstr "username", .str (jstr "a")), (jstr "password", .str (jstr "b"))] }

/-- Fixture: OAuth2 credentials carrying a string `redirectUrl`. -/
def credOAuth : Credentials :=
  { providerType := jstr "oauth2-google", providerName := jstr "oauth2-google",
    payload := [(jstr "redirectUrl", .str (jstr "https://x/callback"))] }

/-- Fixture: a login environment returning a valid session. -/
def envGood : AuthEnv :=
  { loginUrl := jstr "https://x/login",
    loginResponse := [(jstr "user_id", .str (jstr "u1")), (jstr "access_token", .str (jstr "tok"))] }

/-- Fixture: a login environment whose response has empty-string ids and a
numeric refresh token. -/
def envEmptyIds : AuthEnv :=
  { loginUrl := jstr "https://x/login",
    loginResponse := [(jstr "user_id", .str []), (jstr "access_token", .str []),
      (jstr "refresh_token", .num 42)] }

/-- Fixture: the login request issued against `envGood`/`envEmptyIds` without
linking. -/
def reqLoginPlain : LoginRequest :=
  { method := jstr "POST", url := jstr "https://x/login", body := credUserPass.payload,
    tokenType := TokenType.none, user := none }

/-- Fixture: the session `authenticate` returns against `envGood`. -/
def sessionGood : AuthResponse :=
  { userId := jstr "u1", accessToken := jstr "tok", refreshToken := .null }

/-- Fixture: the session `authenticate` returns against `envEmptyIds`. -/
def sessionEmptyIds : AuthResponse :=
  { userId := [], accessToken := [], refreshToken := .num 42 }

example : decodeURIComponent (encodeURIComponent (jstr "a b&c=d")) = some (jstr "a b&c=d") := by decide
example : encodeQueryString [(jstr "link", some (.bool true))] = jstr "link=true" := by decide
example : decodeQueryString (jstr "") = some [(jstr "", jstr "undefined")] := by decide
example : decodeQueryString (jstr "a&a=1") = some [(jstr "a", jstr "1")] := by decide
example : encodeUrl (jstr "https://x/login") [(jstr "link", some (.bool true))] = jstr "https://x/login?link=true" := by decide
example : encodeUrl (jstr "https://x/login") [(jstr "link", none)] = jstr "https://x/login" := by decide

example :
    authenticate envGood credUserPass none =
      .directLogin reqLoginPlain (.ok sessionGood) := by rfl

example : authenticate envGood credOAuth none = .oauth2Flow := by rfl

/-- C1: `authenticate` takes the OAuth2 delegation path exactly when the
credential's provider type starts with `"oauth2"` and its payload carries a
string-typed `redirectUrl`; in every other case it takes the direct login
POST path. -/
theorem authenticate_branch_selects_oauth2_iff :
    ∀ (env : AuthEnv) (credentials : Credentials) (linkWithUser : Option User),
      ((authenticate env credentials linkWithUser = .oauth2Flow) ↔
        ((jstr "oauth2").isPrefixOf credentials.providerType = true ∧
          isString (lookupField credentials.payload (jstr "redirectUrl")) = true)) ∧
      ((∃ req res, authenticate env credentials linkWithUser = .directLogin req res) ↔
        ¬((jstr "oauth2").isPrefixOf credentials.providerType = true ∧
          isString (lookupField credentials.payload (jstr "redirectUrl")) = true)) := by
  intro env credentials linkWithUser
  unfold authenticate
  by_cases h : ((jstr "oauth2").isPrefixOf credentials.providerType &&
      isString (lookupField credentials.payload (jstr "redirectUrl"))) = true
  · rw [if_pos h]
    rw [Bool.and_eq_true] at h
    refine ⟨⟨fun _ => h, fun _ => rfl⟩, ⟨?_, ?_⟩⟩
    · rintro ⟨req, res, hcontra⟩
      cases hcontra
    · intro hcontra
      exact absurd h hcontra
  · rw [if_neg h]
    rw [Bool.and_eq_true] at h
    refine ⟨⟨?_, fun hc => absurd hc h⟩, ⟨fun _ => h, fun _ => ⟨_, _, rfl⟩⟩⟩
    intro hcontra
    simp at hcontra

/-- C5: for a numeric `timeoutMs` the transport constructs an abort controller
whose timer is armed with exactly that delay, and after the underlying call
settles — successfully or by exception — the timer is always cancelled; when
`timeoutMs` is absent no controller and no timer are created at all, and the
call result passes through unchanged. -/
theorem transportFetch_timer_discipline :
    ∀ (request : Request) (callResult : Except Str Response),
      (createTimeoutSignal request.timeoutMs).1.timerDelay = request.timeoutMs ∧
      (createTimeoutSignal request.timeoutMs).1.aborterCreated = request.timeoutMs.isSome ∧
      (transportFetch request callResult).2.timerDelay = none ∧
      (transportFetch request callResult).2.aborterCreated = request.timeoutMs.isSome ∧
      (transportFetch request callResult).1 = callResult := by
  intro request callResult
  cases h : request.timeoutMs <;>
    simp [transportFetch, createTimeoutSignal, h]

/-- C6: a success response with no content-type header resolves to the null
value; it is never classified as an error. -/
theorem fetchAndParse_empty_success :
    ∀ (request : Request) (response : Response),
      response.ok = true →
      headersGet response.headers (jstr "content-type") = none →
      fetchAndParse request (.ok response) = .ok .null := by
  intro request response hok hct
  have ht : tryFetchAndParse request (.ok response) = .ok .null := by
    simp [tryFetchAndParse, hok, hct]
  simp [fetchAndParse, ht]

/-- Witness for C6 at a concrete 200 response without headers. -/
theorem fetchAndParse_empty_success_witness :
    fetchAndParse reqGet (.ok respEmptyOk) = .ok .null :=
  fetchAndParse_empty_success reqGet respEmptyOk rfl rfl

/-- C3: a non-success response whose content-type starts with
`application/json` and whose body parses rejects with the structured API
error carrying the request's method and URL and exactly the response's status
code, status text, and parsed JSON payload. -/
theorem fetchAndParse_api_error_on_json_failure :
    ∀ (request : Request) (response : Response) (ct : Str) (payload : JValue),
      response.ok = false →
      headersGet response.headers (jstr "content-type") = some ct →
      (jstr "application/json").isPrefixOf ct = true →
      response.json = .ok payload →
      fetchAndParse request (.ok response) =
        .error (.mongoDBRealm request.method request.url response.status
          response.statusText payload) := by
  intro request response ct payload hok hct hpre hjson
  have ht : tryFetchAndParse request (.ok response) =
      .error (.mongoDBRealm request.method request.url response.status
        response.statusText payload) := by
    simp [tryFetchAndParse, hok, hct, hpre, hjson]
  simp [fetchAndParse, ht]

/-- Witness for C3 at a concrete 401 JSON error response. -/
theorem fetchAndParse_api_error_on_json_failure_witness :
    fetchAndParse reqGet (.ok resp401) =
      .error (.mongoDBRealm reqGet.method reqGet.url resp401.status resp401.statusText
        (.obj [(jstr "error", .str (jstr "invalid session"))])) :=
  fetchAndParse_api_error_on_json_failure reqGet resp401 (jstr "application/json")
    (.obj [(jstr "error", .str (jstr "invalid session"))]) rfl rfl (by decide) rfl

/-- C4: the `catch` of `fetchAndParse` rethrows an already-classified API
error unchanged (never re-wrapped) and wraps every other exception of the
`try` block into a transport error that names the request's method and URL
and ends with the original message. -/
theorem fetchAndParse_wraps_transport_errors :
    ∀ (request : Request) (fetchResult : Except Str Response),
      (∀ m u s st p,
        tryFetchAndParse request fetchResult = .error (.mongoDBRealm m u s st p) →
        fetchAndParse request fetchResult = .error (.mongoDBRealm m u s st p)) ∧
      (∀ msg,
        tryFetchAndParse request fetchResult = .error (.plain msg) →
        fetchAndParse request fetchResult =
          .error (.plain (jstr "Request failed (" ++ request.method ++ jstr " " ++
            request.url ++ jstr "): " ++ msg))) := by
  intro request fetchResult
  constructor
  · intro m u s st p h
    simp [fetchAndParse, h]
  · intro msg h
    simp [fetchAndParse, h]

/-- Witness for C4 at a concrete network failure. -/
theorem fetchAndParse_wraps_transport_errors_witness :
    fetchAndParse reqGet (.error (jstr "connection reset")) =
      .error (.plain (jstr "Request failed (" ++ reqGet.method ++ jstr " " ++
        reqGet.url ++ jstr "): " ++ jstr "connection reset")) :=
  (fetchAndParse_wraps_transport_errors reqGet (.error (jstr "connection reset"))).2
    (jstr "connection reset") rfl

/-- C7: `fetchWithCallbacks` hands `onSuccess` the raw status code, flattened
header mapping, and undecoded body text of every settled response regardless
of its status, and hands `onError` the raw error exactly when the call itself
(or reading its body) fails. -/
theorem fetchWithCallbacks_raw_passthrough :
    ∀ {α : Type} (request : Request) (handler : ResponseHandler α),
      (∀ (response : Response) (decodedBody : Str),
        response.text = .ok decodedBody →
        fetchWithCallbacks request (.ok response) handler =
          handler.onSuccess
            { statusCode := response.status, headers := fromEntries response.headers,
              body := decodedBody }) ∧
      (∀ (response : Response) (e : Str),
        response.text = .error e →
        fetchWithCallbacks request (.ok response) handler = handler.onError e) ∧
      (∀ e, fetchWithCallbacks request (.error e) handler = handler.onError e) := by
  intro α request handler
  refine ⟨?_, ?_, fun e => rfl⟩
  · intro response decodedBody h
    simp [fetchWithCallbacks, h]
  · intro response e h
    simp [fetchWithCallbacks, h]

/-- Witness for C7 at a concrete 404 text response: the raw triple reaches
`onSuccess` even though the status is a failure status. -/
theorem fetchWithCallbacks_raw_passthrough_witness :
    fetchWithCallbacks reqGet (.ok respText) probeHandler =
      probeHandler.onSuccess
        { statusCode := respText.status, headers := fromEntries respText.headers,
          body := jstr "plain body" } :=
  (fetchWithCallbacks_raw_passthrough reqGet probeHandler).1 respText (jstr "plain body") rfl

/-- C8: on the direct login path, the login URL carries `?link=true` and the
request's token type is `access` exactly when a link user is supplied; with no
link user the URL is unmodified (no `link` parameter at all, in particular
never `link=false`) and the token type is `none`. -/
theorem authenticate_link_query_and_tokenType :
    ∀ (env : AuthEnv) (credentials : Credentials) (u : User),
      (∀ req res, authenticate env credentials (some u) = .directLogin req res →
        req.url = env.loginUrl ++ jstr "?link=true" ∧ req.tokenType = .access) ∧
      (∀ req res, authenticate env credentials none = .directLogin req res →
        req.url = env.loginUrl ∧ req.tokenType = TokenType.none) := by
  intro env credentials u
  by_cases h : ((jstr "oauth2").isPrefixOf credentials.providerType &&
      isString (lookupField credentials.payload (jstr "redirectUrl"))) = true
  · refine ⟨?_, ?_⟩ <;>
      · intro req res hcontra
        unfold authenticate at hcontra
        rw [if_pos h] at hcontra
        cases hcontra
  · refine ⟨?_, ?_⟩
    · intro req res heq
      unfold authenticate at heq
      rw [if_neg h] at heq
      cases heq
      refine ⟨?_, rfl⟩
      show encodeUrl env.loginUrl [(jstr "link", some (.bool true))] =
        env.loginUrl ++ jstr "?link=true"
      unfold encodeUrl
      rw [show encodeQueryString [(jstr "link", some (.bool true))] = jstr "link=true" from
        by decide]
      rw [if_pos (by decide)]
      congr 1
    · intro req res heq
      unfold authenticate at heq
      rw [if_neg h] at heq
      cases heq
      refine ⟨?_, rfl⟩
      show encodeUrl env.loginUrl [(jstr "link", none)] = env.loginUrl
      unfold encodeUrl
      rw [show encodeQueryString [(jstr "link", none)] = [] from by decide]
      simp

/-- Witness for C8: linking against a concrete user appends `?link=true` and
selects the `access` token type. -/
theorem authenticate_link_query_and_tokenType_witness :
    ((jstr "https://x/login?link=true" : Str) = jstr "https://x/login" ++ jstr "?link=true") ∧
    ((jstr "https://x/login?link=true" : Str) = jstr "https://x/login" ++ jstr "?link=true" ∧
      TokenType.access = TokenType.access) :=
  ⟨by decide,
    (authenticate_link_query_and_tokenType envGood credUserPass { id := jstr "u0" }).1
      { method := jstr "POST", url := jstr "https://x/login?link=true",
        body := credUserPass.payload, tokenType := TokenType.access,
        user := some { id := jstr "u0" } }
      (.ok { userId := jstr "u1", accessToken := jstr "tok", refreshToken := .null })
      (by rfl)⟩

/-- C2 (amended): every session successfully returned on the direct login
path takes its `userId` and `accessToken` verbatim from string-typed
`user_id` / `access_token` response fields (which may be empty), and its
`refreshToken` verbatim from the `refresh_token` field, defaulting to `null`
exactly when that field is `undefined` (no type check is performed on it);
whenever `user_id` or `access_token` is not string-typed, the result is a
rejection with the corresponding descriptive error, issued before any session
is produced. -/
theorem authenticate_direct_validation :
    ∀ (env : AuthEnv) (credentials : Credentials) (linkWithUser : Option User)
      (req : LoginRequest) (res : Except Str AuthResponse),
      authenticate env credentials linkWithUser = .directLogin req res →
      ((∀ a, res = .ok a →
          lookupField env.loginResponse (jstr "user_id") = .str a.userId ∧
          lookupField env.loginResponse (jstr "access_token") = .str a.accessToken ∧
          (lookupField env.loginResponse (jstr "refresh_token") = .undefined →
            a.refreshToken = .null) ∧
          (lookupField env.loginResponse (jstr "refresh_token") ≠ .undefined →
            a.refreshToken = lookupField env.loginResponse (jstr "refresh_token"))) ∧
        (isString (lookupField env.loginResponse (jstr "user_id")) = false →
          res = .error (jstr "Expected a user id in the response")) ∧
        (isString (lookupField env.loginResponse (jstr "user_id")) = true →
          isString (lookupField env.loginResponse (jstr "access_token")) = false →
          res = .error (jstr "Expected an access token in the response"))) := by
  intro env credentials linkWithUser req res heq
  by_cases h : ((jstr "oauth2").isPrefixOf credentials.providerType &&
      isString (lookupField credentials.payload (jstr "redirectUrl"))) = true
  · unfold authenticate at heq
    rw [if_pos h] at heq
    cases heq
  · unfold authenticate at heq
    rw [if_neg h] at heq
    cases heq
    refine ⟨?_, ?_, ?_⟩
    · intro a ha
      revert ha
      cases hu : lookupField env.loginResponse (jstr "user_id") <;> intro ha <;>
        first
          | exact Except.noConfusion ha
          | skip
      revert ha
      cases hacc : lookupField env.loginResponse (jstr "access_token") <;> intro ha <;>
        first
          | exact Except.noConfusion ha
          | skip
      cases ha
      refine ⟨rfl, rfl, ?_, ?_⟩
      · intro hr
        rw [hr]
      · intro hr
        revert hr
        cases lookupField env.loginResponse (jstr "refresh_token") <;> intro hr <;>
          first
            | exact absurd rfl hr
            | rfl
    · intro hu
      revert hu
      cases lookupField env.loginResponse (jstr "user_id") <;> intro hu <;>
        first
          | rfl
          | exact Bool.noConfusion hu
    · intro hu hacc
      revert hu hacc
      cases lookupField env.loginResponse (jstr "user_id") <;> intro hu hacc <;>
        first
          | exact Bool.noConfusion hu
          | skip
      revert hacc
      cases lookupField env.loginResponse (jstr "access_token") <;> intro hacc <;>
        first
          | rfl
          | exact Bool.noConfusion hacc

/-- Counterexample for C2 as stated: against a login response with
empty-string `user_id` / `access_token` and a numeric `refresh_token`,
`authenticate` returns a session successfully — with an empty `userId`, an
empty `accessToken`, and a `refreshToken` that is neither a string nor null. -/
theorem authenticate_empty_session_counterexample :
    authenticate envEmptyIds credUserPass none =
      .directLogin reqLoginPlain (.ok sessionEmptyIds) ∧
    sessionEmptyIds.userId.length = 0 ∧
    sessionEmptyIds.accessToken.length = 0 ∧
    isStringOrNull sessionEmptyIds.refreshToken = false :=
  ⟨rfl, rfl, rfl, rfl⟩

/-- Witness for C2 (amended) at a concrete successful login. -/
theorem authenticate_direct_validation_witness :
    lookupField envGood.loginResponse (jstr "user_id") = .str sessionGood.userId ∧
    lookupField envGood.loginResponse (jstr "access_token") = .str sessionGood.accessToken ∧
    (lookupField envGood.loginResponse (jstr "refresh_token") = .undefined →
      sessionGood.refreshToken = .null) ∧
    (lookupField envGood.loginResponse (jstr "refresh_token") ≠ .undefined →
      sessionGood.refreshToken = lookupField envGood.loginResponse (jstr "refresh_token")) :=
  (authenticate_direct_validation envGood credUserPass none reqLoginPlain
    (.ok sessionGood) rfl).1 sessionGood rfl

/-- Every Unicode scalar value is below 0x110000. -/
theorem char_toNat_lt_max (c : Char) : c.toNat < 1114112 := by
  have h := c.valid
  show c.val.toNat < 1114112
  rcases h with h | ⟨h1, h2⟩
  · have h3 : c.val.toNat < (55296 : UInt32).toNat := h
    have h4 : (55296 : UInt32).toNat = 55296 := rfl
    omega
  · have h3 : c.val.toNat < (1114112 : UInt32).toNat := h2
    have h4 : (1114112 : UInt32).toNat = 1114112 := rfl
    omega

/-- The hex-digit reader inverts the hex-digit writer. -/
theorem hexDigitVal_hexDigit (n : Nat) (h : n < 16) : hexDigitVal (hexDigit n) = some n := by
  interval_cases n <;> decide

/-- Hex digits are never `&` or `=`. -/
theorem hexDigit_ne (n : Nat) (h : n < 16) : hexDigit n ≠ '&' ∧ hexDigit n ≠ '=' := by
  interval_cases n <;> decide

/-- UTF-8 encoding of a valid code point produces bytes. -/
theorem utf8Bytes_lt (n : Nat) (hn : n < 1114112) : ∀ b ∈ utf8Bytes n, b < 256 := by
  intro b hb
  unfold utf8Bytes at hb
  split_ifs at hb with h1 h2 h3 <;> simp at hb <;>
    rcases hb with rfl | rfl | rfl | rfl <;> omega

/-- No character of a percent-encoded string is `&` or `=`. -/
theorem encodeChar_chars (c : Char) : ∀ x ∈ encodeChar c, x ≠ '&' ∧ x ≠ '=' := by
  intro x hx
  unfold encodeChar at hx
  split_ifs at hx with h
  · simp at hx
    subst hx
    constructor <;> intro hc <;> rw [hc] at h <;> exact absurd h (by decide)
  · simp only [List.mem_flatten, List.mem_map] at hx
    obtain ⟨l, ⟨b, hb, hl⟩, hxl⟩ := hx
    subst hl
    have hblt : b < 256 := utf8Bytes_lt c.toNat (char_toNat_lt_max c) b hb
    unfold pctByte at hxl
    simp at hxl
    rcases hxl with rfl | rfl | rfl
    · exact ⟨by decide, by decide⟩
    · exact hexDigit_ne (b / 16) (by omega)
    · exact hexDigit_ne (b % 16) (by omega)

/-- No character of an `encodeURIComponent` output is `&` or `=`. -/
theorem encodeURIComponent_chars (s : Str) :
    ∀ x ∈ encodeURIComponent s, x ≠ '&' ∧ x ≠ '=' := by
  intro x hx
  unfold encodeURIComponent at hx
  simp only [List.mem_flatten, List.mem_map] at hx
  obtain ⟨l, ⟨c, _, hl⟩, hxl⟩ := hx
  subst hl
  exact encodeChar_chars c x hxl

/-- The percent-escape tokenizer reads back a run of escaped bytes. -/
theorem pctTokens_pctBytes (bs : List Nat) (rest : Str) (hbs : ∀ b ∈ bs, b < 256) :
    pctTokens ((bs.map pctByte).flatten ++ rest) =
      (pctTokens rest).map (fun ts => bs.map Sum.inr ++ ts) := by
  induction bs with
  | nil =>
    simp only [List.map_nil, List.flatten_nil, List.nil_append]
    cases pctTokens rest <;> simp
  | cons b bs ih =>
    have hb : b < 256 := hbs b (by simp)
    have hbs2 : ∀ x ∈ bs, x < 256 := fun x hx => hbs x (by simp [hx])
    simp only [List.map_cons, List.flatten_cons, List.append_assoc]
    show pctTokens ('%' :: hexDigit (b / 16) :: hexDigit (b % 16) ::
      ((bs.map pctByte).flatten ++ rest)) = _
    rw [pctTokens]
    rw [if_pos rfl]
    rw [hexDigitVal_hexDigit (b / 16) (by omega), hexDigitVal_hexDigit (b % 16) (by omega)]
    rw [ih hbs2]
    cases pctTokens rest <;> simp <;> omega


/-- The percent-escape tokenizer reads back one encoded character as its
token form. -/
theorem pctTokens_encodeChar (c : Char) (rest : Str) :
    pctTokens (encodeChar c ++ rest) =
      (pctTokens rest).map (fun ts => tokensOfChar c ++ ts) := by
  unfold encodeChar tokensOfChar
  split_ifs with h
  · have hc : ¬(c = '%') := by
      intro hc
      rw [hc] at h
      exact absurd h (by decide)
    simp only [List.singleton_append]
    cases rest with
    | nil => simp [pctTokens, hc]
    | cons a t =>
      cases t with
      | nil => simp [pctTokens, hc]
      | cons b t2 => simp [pctTokens, hc]
  · exact pctTokens_pctBytes _ rest (utf8Bytes_lt _ (char_toNat_lt_max c))

/-- Byte classification on the ranges produced by `utf8Bytes`. -/
theorem classifyByteTok_inr (b : Nat) :
    (b < 0x80 → classifyByteTok (Sum.inr b) = .ascii b) ∧
    (0x80 ≤ b → b < 0xC0 → classifyByteTok (Sum.inr b) = .cont (b - 0x80)) ∧
    (0xC0 ≤ b → b < 0xE0 → classifyByteTok (Sum.inr b) = .lead2 (b - 0xC0)) ∧
    (0xE0 ≤ b → b < 0xF0 → classifyByteTok (Sum.inr b) = .lead3 (b - 0xE0)) ∧
    (0xF0 ≤ b → classifyByteTok (Sum.inr b) = .lead4 (b - 0xF0)) := by
  have he : classifyByteTok (Sum.inr b) =
      if b < 0x80 then .ascii b
      else if b < 0xC0 then .cont (b - 0x80)
      else if b < 0xE0 then .lead2 (b - 0xC0)
      else if b < 0xF0 then .lead3 (b - 0xE0)
      else .lead4 (b - 0xF0) := rfl
  refine ⟨fun h => ?_, fun h1 h2 => ?_, fun h1 h2 => ?_, fun h1 h2 => ?_, fun h1 => ?_⟩ <;>
    rw [he] <;>
    first
      | rw [if_pos (by omega)]
      | rw [if_neg (by omega), if_pos (by omega)]
      | rw [if_neg (by omega), if_neg (by omega), if_pos (by omega)]
      | rw [if_neg (by omega), if_neg (by omega), if_neg (by omega), if_pos (by omega)]
      | rw [if_neg (by omega), if_neg (by omega), if_neg (by omega), if_neg (by omega)]

/-- The UTF-8 assembler reads back one character's classified token form. -/
theorem utf8Assemble_tokensOfChar (c : Char) (ts : List (Sum Char Nat)) :
    utf8Assemble ((tokensOfChar c ++ ts).map classifyByteTok) =
      (utf8Assemble (ts.map classifyByteTok)).map (fun s => c :: s) := by
  unfold tokensOfChar
  split_ifs with h
  · rfl
  · have hn := char_toNat_lt_max c
    unfold utf8Bytes
    split_ifs with h1 h2 h3
    · simp only [List.map_cons, List.map_nil, List.singleton_append, List.map_cons]
      rw [(classifyByteTok_inr c.toNat).1 h1]
      show (utf8Assemble (ts.map classifyByteTok)).map (fun s => Char.ofNat c.toNat :: s) = _
      rw [Char.ofNat_toNat]
    · simp only [List.map_cons, List.map_nil, List.cons_append, List.nil_append,
        List.map_cons]
      rw [(classifyByteTok_inr (0xC0 + c.toNat / 0x40)).2.2.1 (by omega) (by omega)]
      rw [(classifyByteTok_inr (0x80 + c.toNat % 0x40)).2.1 (by omega) (by omega)]
      show (utf8Assemble (ts.map classifyByteTok)).map
        (fun s => Char.ofNat ((0xC0 + c.toNat / 0x40 - 0xC0) * 0x40 +
          (0x80 + c.toNat % 0x40 - 0x80)) :: s) = _
      rw [show (0xC0 + c.toNat / 0x40 - 0xC0) * 0x40 + (0x80 + c.toNat % 0x40 - 0x80) =
        c.toNat from by omega]
      rw [Char.ofNat_toNat]
    · simp only [List.map_cons, List.map_nil, List.cons_append, List.nil_append,
        List.map_cons]
      rw [(classifyByteTok_inr (0xE0 + c.toNat / 0x1000)).2.2.2.1 (by omega) (by omega)]
      rw [(classifyByteTok_inr (0x80 + c.toNat / 0x40 % 0x40)).2.1 (by omega) (by omega)]
      rw [(classifyByteTok_inr (0x80 + c.toNat % 0x40)).2.1 (by omega) (by omega)]
      show (utf8Assemble (ts.map classifyByteTok)).map
        (fun s => Char.ofNat ((0xE0 + c.toNat / 0x1000 - 0xE0) * 0x1000 +
          (0x80 + c.toNat / 0x40 % 0x40 - 0x80) * 0x40 +
          (0x80 + c.toNat % 0x40 - 0x80)) :: s) = _
      rw [show (0xE0 + c.toNat / 0x1000 - 0xE0) * 0x1000 +
          (0x80 + c.toNat / 0x40 % 0x40 - 0x80) * 0x40 +
          (0x80 + c.toNat % 0x40 - 0x80) = c.toNat from ?_]
      · rw [Char.ofNat_toNat]
      · have hd : c.toNat / 0x40 / 0x40 = c.toNat / 0x1000 := by
          rw [Nat.div_div_eq_div_mul]
        omega
    · simp only [List.map_cons, List.map_nil, List.cons_append, List.nil_append,
        List.map_cons]
      rw [(classifyByteTok_inr (0xF0 + c.toNat / 0x40000)).2.2.2.2 (by omega)]
      rw [(classifyByteTok_inr (0x80 + c.toNat / 0x1000 % 0x40)).2.1 (by omega) (by omega)]
      rw [(classifyByteTok_inr (0x80 + c.toNat / 0x40 % 0x40)).2.1 (by omega) (by omega)]
      rw [(classifyByteTok_inr (0x80 + c.toNat % 0x40)).2.1 (by omega) (by omega)]
      show (utf8Assemble (ts.map classifyByteTok)).map
        (fun s => Char.ofNat ((0xF0 + c.toNat / 0x40000 - 0xF0) * 0x40000 +
          (0x80 + c.toNat / 0x1000 % 0x40 - 0x80) * 0x1000 +
          (0x80 + c.toNat / 0x40 % 0x40 - 0x80) * 0x40 +
          (0x80 + c.toNat % 0x40 - 0x80)) :: s) = _
      rw [show (0xF0 + c.toNat / 0x40000 - 0xF0) * 0x40000 +
          (0x80 + c.toNat / 0x1000 % 0x40 - 0x80) * 0x1000 +
          (0x80 + c.toNat / 0x40 % 0x40 - 0x80) * 0x40 +
          (0x80 + c.toNat % 0x40 - 0x80) = c.toNat from ?_]
      · rw [Char.ofNat_toNat]
      · have hd1 : c.toNat / 0x40 / 0x40 = c.toNat / 0x1000 := by
          rw [Nat.div_div_eq_div_mul]
        have hd2 : c.toNat / 0x1000 / 0x40 = c.toNat / 0x40000 := by
          rw [Nat.div_div_eq_div_mul]
        omega

/-- Round trip of the platform codec: decoding an encoded string recovers it
exactly (and in particular never raises). -/
theorem decodeURIComponent_encodeURIComponent (s : Str) :
    decodeURIComponent (encodeURIComponent s) = some s := by
  induction s with
  | nil => rfl
  | cons c t ih =>
    unfold decodeURIComponent at ih ⊢
    have he : encodeURIComponent (c :: t) = encodeChar c ++ encodeURIComponent t := by
      simp [encodeURIComponent]
    rw [he, pctTokens_encodeChar]
    cases hp : pctTokens (encodeURIComponent t) with
    | none =>
      rw [hp] at ih
      exact absurd ih (by simp)
    | some ts =>
      rw [hp] at ih
      simp only [Option.map_some', Option.some_bind] at ih ⊢
      rw [utf8Assemble_tokensOfChar, ih]
      rfl


/-- Mapping then traversing with an everywhere-successful partial function
succeeds pointwise. -/
theorem mapOption_over_map {α β γ : Type} (f : β → Option γ) (g : α → β) (h : α → γ) :
    ∀ (l : List α), (∀ a ∈ l, f (g a) = some (h a)) →
      mapOption f (l.map g) = some (l.map h) := by
  intro l
  induction l with
  | nil => intro _; rfl
  | cons a t ih =>
    intro hl
    have h1 : f (g a) = some (h a) := hl a (by simp)
    have h2 : mapOption f (t.map g) = some (t.map h) := ih (fun x hx => hl x (by simp [hx]))
    simp [mapOption, h1, h2]

/-- A successful traversal of an appended list splits into successful
traversals of its parts. -/
theorem mapOption_eq_some_split {α β : Type} (f : α → Option β) :
    ∀ (l₁ l₂ : List α) (r : List β),
      mapOption f (l₁ ++ l₂) = some r →
      ∃ r₁ r₂, r = r₁ ++ r₂ ∧ mapOption f l₁ = some r₁ ∧ mapOption f l₂ = some r₂ := by
  intro l₁
  induction l₁ with
  | nil =>
    intro l₂ r h
    exact ⟨[], r, rfl, rfl, h⟩
  | cons a t ih =>
    intro l₂ r h
    rw [List.cons_append] at h
    rw [mapOption] at h
    cases hfa : f a with
    | none => rw [hfa] at h; simp at h
    | some b =>
      rw [hfa] at h
      simp only [Option.some_bind] at h
      cases hmt : mapOption f (t ++ l₂) with
      | none => rw [hmt] at h; simp at h
      | some rt =>
        rw [hmt] at h
        simp only [Option.map_some'] at h
        have hr : b :: rt = r := Option.some.inj h
        obtain ⟨r₁, r₂, hre, hm1, hm2⟩ := ih l₂ rt hmt
        refine ⟨b :: r₁, r₂, ?_, ?_, hm2⟩
        · rw [← hr, hre]
          rfl
        · simp [mapOption, hfa, hm1]

/-- Every element of a successful traversal comes from some source element. -/
theorem mapOption_mem {α β : Type} (f : α → Option β) :
    ∀ (l : List α) (r : List β), mapOption f l = some r → ∀ b ∈ r, ∃ a ∈ l, f a = some b := by
  intro l
  induction l with
  | nil =>
    intro r h b hb
    have hr : ([] : List β) = r := Option.some.inj h
    rw [← hr] at hb
    cases hb
  | cons a t ih =>
    intro r h b hb
    rw [mapOption] at h
    cases hfa : f a with
    | none => rw [hfa] at h; simp at h
    | some b0 =>
      rw [hfa] at h
      simp only [Option.some_bind] at h
      cases hmt : mapOption f t with
      | none => rw [hmt] at h; simp at h
      | some rt =>
        rw [hmt] at h
        simp only [Option.map_some'] at h
        have hr : b0 :: rt = r := Option.some.inj h
        rw [← hr] at hb
        rcases List.mem_cons.mp hb with hb | hb
        · exact ⟨a, by simp, by rw [hfa, hb]⟩
        · obtain ⟨a2, ha2, hf2⟩ := ih rt hmt b hb
          exact ⟨a2, by simp [ha2], hf2⟩

/-- Lookup on a cons cell. -/
theorem lookupEntry_cons (x : Str × Str) (r : List (Str × Str)) (k : Str) :
    lookupEntry (x :: r) k = if x.1 = k then some x.2 else lookupEntry r k := by
  by_cases h : x.1 = k
  · simp [lookupEntry, List.find?_cons, h]
  · simp [lookupEntry, List.find?_cons, h]

/-- Lookup distributes over append, preferring the left part. -/
theorem lookupEntry_append (l₁ l₂ : List (Str × Str)) (k : Str) :
    lookupEntry (l₁ ++ l₂) k = (lookupEntry l₁ k).or (lookupEntry l₂ k) := by
  unfold lookupEntry
  rw [List.find?_append]
  cases List.find? (fun p => p.1 == k) l₁ <;> simp

/-- Lookup after JavaScript's replace-in-place update. -/
theorem lookupEntry_map_update (acc : List (Str × Str)) (k v k2 : Str) :
    lookupEntry (acc.map (fun p => if p.1 == k then (k, v) else p)) k2 =
      if k2 = k ∧ acc.any (fun p => p.1 == k) = true then some v
      else lookupEntry acc k2 := by
  induction acc with
  | nil => simp [lookupEntry]
  | cons a t ih =>
    rw [List.map_cons, lookupEntry_cons, lookupEntry_cons]
    by_cases ha : a.1 = k
    · rw [show (if (a.1 == k) = true then (k, v) else a) = (k, v) from by simp [ha]]
      by_cases hk : k2 = k
      · rw [if_pos (show (k, v).1 = k2 from hk.symm),
          if_pos (⟨hk, by simp [List.any_cons, ha]⟩ :
            k2 = k ∧ (a :: t).any (fun p => p.1 == k) = true)]
      · rw [if_neg (show ¬((k, v).1 = k2) from fun hc => hk hc.symm)]
        rw [ih]
        rw [if_neg (fun hc => hk hc.1), if_neg (fun hc => hk hc.1),
          if_neg (fun (hc : a.1 = k2) => hk (hc ▸ ha))]
    · rw [show (if (a.1 == k) = true then (k, v) else a) = a from by simp [ha]]
      rw [ih]
      by_cases hak : a.1 = k2
      · rw [if_pos hak, if_pos hak]
        rw [if_neg (fun hc => ha (hak.trans hc.1))]
      · rw [if_neg hak, if_neg hak]
        by_cases hk : k2 = k
        · rw [show (a :: t).any (fun p => p.1 == k) = t.any (fun p => p.1 == k) from
            by simp [List.any_cons, ha]]
        · rw [if_neg (fun hc => hk hc.1), if_neg (fun hc => hk hc.1)]

/-- Lookup after one JavaScript object assignment. -/
theorem lookupEntry_insertEntry (acc : List (Str × Str)) (k v k2 : Str) :
    lookupEntry (insertEntry acc k v) k2 =
      if k2 = k then some v else lookupEntry acc k2 := by
  unfold insertEntry
  by_cases hany : acc.any (fun p => p.1 == k) = true
  · rw [if_pos hany, lookupEntry_map_update]
    by_cases hk : k2 = k
    · rw [if_pos ⟨hk, hany⟩, if_pos hk]
    · rw [if_neg (fun hc => hk hc.1), if_neg hk]
  · rw [if_neg hany, lookupEntry_append]
    by_cases hk : k2 = k
    · have hnone : lookupEntry acc k2 = none := by
        unfold lookupEntry
        rw [List.find?_eq_none.mpr]
        · rfl
        · intro p hp
          intro hbeq
          exact hany (List.any_eq_true.mpr ⟨p, hp, by rw [beq_iff_eq] at hbeq ⊢; rw [hbeq, hk]⟩)
      rw [hnone, if_pos hk, lookupEntry_cons, if_pos hk.symm]
      rfl
    · rw [if_neg hk, lookupEntry_cons, if_neg (fun hc => hk hc.symm)]
      cases lookupEntry acc k2 <;> simp [lookupEntry]

/-- Lookup through the `fromEntries` fold equals the last assignment, with the
accumulator as fallback. -/
theorem lookupEntry_foldl (l : List (Str × Str)) :
    ∀ (acc : List (Str × Str)) (k : Str),
      lookupEntry (List.foldl (fun acc p => insertEntry acc p.1 p.2) acc l) k =
        (lastAssign l k).or (lookupEntry acc k) := by
  induction l with
  | nil => intro acc k; cases h : lookupEntry acc k <;> simp [lastAssign, h]
  | cons p t ih =>
    intro acc k
    rw [List.foldl_cons, ih]
    show _ = (match lastAssign t k with
      | some v => some v
      | none => if p.1 == k then some p.2 else none).or (lookupEntry acc k)
    cases hlt : lastAssign t k with
    | some v => simp
    | none =>
      simp only [lookupEntry_insertEntry, Option.none_or]
      by_cases hk : k = p.1
      · rw [if_pos hk, if_pos (by rw [beq_iff_eq]; exact hk.symm)]
        rfl
      · rw [if_neg hk, if_neg (by rw [beq_iff_eq]; exact fun hc => hk hc.symm)]
        rfl

/-- Lookup in a `fromEntries` object is the last assignment to the key. -/
theorem lookupEntry_fromEntries (l : List (Str × Str)) (k : Str) :
    lookupEntry (fromEntries l) k = lastAssign l k := by
  unfold fromEntries
  rw [lookupEntry_foldl]
  cases lastAssign l k <;> simp [lookupEntry]

/-- Later parts of a pair list dominate in `lastAssign`. -/
theorem lastAssign_append (l₁ l₂ : List (Str × Str)) (k : Str) :
    lastAssign (l₁ ++ l₂) k = (lastAssign l₂ k).or (lastAssign l₁ k) := by
  induction l₁ with
  | nil =>
    rw [List.nil_append]
    show lastAssign l₂ k = (lastAssign l₂ k).or none
    cases lastAssign l₂ k <;> rfl
  | cons p t ih =>
    rw [List.cons_append]
    show (match lastAssign (t ++ l₂) k with
      | some v => some v
      | none => if p.1 == k then some p.2 else none) = _
    rw [ih]
    show _ = (lastAssign l₂ k).or (match lastAssign t k with
      | some v => some v
      | none => if p.1 == k then some p.2 else none)
    cases lastAssign l₂ k <;> cases lastAssign t k <;> simp

/-- A key absent from every pair has no last assignment. -/
theorem lastAssign_eq_none (l : List (Str × Str)) (k : Str)
    (h : ∀ p ∈ l, p.1 ≠ k) : lastAssign l k = none := by
  induction l with
  | nil => rfl
  | cons p t ih =>
    show (match lastAssign t k with
      | some v => some v
      | none => if p.1 == k then some p.2 else none) = none
    rw [ih (fun q hq => h q (by simp [hq]))]
    rw [if_neg (by rw [beq_iff_eq]; exact h p (by simp))]

/-- Folding assignments of fresh keys onto a disjoint accumulator appends. -/
theorem foldl_insertEntry_disjoint :
    ∀ (l acc : List (Str × Str)),
      (∀ p ∈ l, ∀ q ∈ acc, q.1 ≠ p.1) →
      (l.map Prod.fst).Nodup →
      List.foldl (fun acc p => insertEntry acc p.1 p.2) acc l = acc ++ l := by
  intro l
  induction l with
  | nil => intro acc _ _; simp
  | cons p t ih =>
    intro acc hdisj hnodup
    rw [List.foldl_cons]
    have hins : insertEntry acc p.1 p.2 = acc ++ [p] := by
      unfold insertEntry
      rw [if_neg ?hside]
      case hside =>
        intro hany
        obtain ⟨q, hq, hbeq⟩ := List.any_eq_true.mp hany
        exact hdisj p (by simp) q hq (beq_iff_eq.mp hbeq)
    rw [hins]
    rw [List.map_cons, List.nodup_cons] at hnodup
    rw [ih (acc ++ [p]) ?_ hnodup.2]
    · rw [List.append_assoc]
      rfl
    · intro r hr q hq
      rcases List.mem_append.mp hq with hq | hq
      · exact hdisj r (by simp [hr]) q hq
      · rw [List.mem_singleton.mp hq]
        intro hc
        exact hnodup.1 (hc ▸ List.mem_map_of_mem Prod.fst hr)

/-- `Object.fromEntries` of a list with distinct keys is that list. -/
theorem fromEntries_nodup (l : List (Str × Str)) (h : (l.map Prod.fst).Nodup) :
    fromEntries l = l := by
  unfold fromEntries
  rw [foldl_insertEntry_disjoint l [] (by simp) h]
  rfl

/-- `split` of a component with no separator occurrence. -/
theorem splitOn_no_occurrence (c : Str) (x : Char) (h : x ∉ c) : c.splitOn x = [c] := by
  unfold List.splitOn
  exact List.splitOnP_eq_single _ _ (fun y hy hbeq => h ((beq_iff_eq.mp hbeq) ▸ hy))

/-- The key produced by `decodePair` is the head of the split parts. -/
theorem decodePair_key (parts : List Str) (p : Str × Str) (hne : parts ≠ [])
    (h : decodePair parts = some p) : p.1 = parts.headD [] := by
  cases parts with
  | nil => exact absurd rfl hne
  | cons k rest =>
    cases rest with
    | nil =>
      rw [show decodePair [k] =
        (decodeURIComponent (jstr "undefined")).map (fun w => (k, w)) from rfl] at h
      cases hdec : decodeURIComponent (jstr "undefined") with
      | none => rw [hdec] at h; cases h
      | some v =>
        rw [hdec] at h
        have hp := Option.some.inj h
        rw [← hp]
        rfl
    | cons v rest2 =>
      rw [show decodePair (k :: v :: rest2) =
        (decodeURIComponent v).map (fun w => (k, w)) from rfl] at h
      cases hdec : decodeURIComponent v with
      | none => rw [hdec] at h; cases h
      | some w =>
        rw [hdec] at h
        have hp := Option.some.inj h
        rw [← hp]
        rfl

/-- Counterexample for C9 as stated: the query-codec round trip fails on the
empty mapping (decoding yields a spurious entry) and on any mapping whose key
contains `&` or `=` (keys are not percent-encoded by `encodeQueryString`). -/
theorem queryString_roundtrip_counterexample :
    (decodeQueryString (encodeQueryString []) = some [(jstr "", jstr "undefined")] ∧
      decodeQueryString (encodeQueryString []) ≠ some []) ∧
    (decodeQueryString (encodeQueryString [(jstr "a&b", some (.str (jstr "c")))]) =
        some [(jstr "a", jstr "undefined"), (jstr "b", jstr "c")] ∧
      decodeQueryString (encodeQueryString [(jstr "a&b", some (.str (jstr "c")))]) ≠
        some [(jstr "a&b", jstr "c")]) ∧
    (decodeQueryString (encodeQueryString [(jstr "a=b", some (.str (jstr "c")))]) =
        some [(jstr "a", jstr "b")] ∧
      decodeQueryString (encodeQueryString [(jstr "a=b", some (.str (jstr "c")))]) ≠
        some [(jstr "a=b", jstr "c")]) := by
  refine ⟨⟨by decide, by decide⟩, ⟨by decide, by decide⟩, by decide, by decide⟩

/-- C9 (amended): for every non-empty mapping of scalar values with no
`undefined` entries whose keys (kept raw by the codec) contain neither `&`
nor `=`, decoding the encoded query string reproduces exactly the mapping's
key/value pairs with values coerced to strings. -/
theorem decode_encode_queryString_roundtrip :
    ∀ (m : List (Str × Scalar)),
      m ≠ [] →
      (∀ p ∈ m, '&' ∉ p.1 ∧ '=' ∉ p.1) →
      (m.map Prod.fst).Nodup →
      decodeQueryString (encodeQueryString (m.map (fun p => (p.1, some p.2)))) =
        some (m.map (fun p => (p.1, scalarToString p.2))) := by
  intro m hne hkeys hnodup
  have hfil : (m.map (fun p => (p.1, some p.2))).filterMap
      (fun p => p.2.map (fun v => (p.1, v))) = m := by
    rw [List.filterMap_map]
    have hfun : ((fun (p : Str × Option Scalar) => p.2.map (fun v => (p.1, v))) ∘
        (fun (p : Str × Scalar) => (p.1, some p.2))) = some := by
      funext p
      rfl
    rw [hfun]
    exact List.filterMap_some m
  have henc : encodeQueryString (m.map (fun p => (p.1, some p.2))) =
      List.intercalate ['&']
        (m.map (fun p => p.1 ++ '=' :: encodeURIComponent (scalarToString p.2))) := by
    show List.intercalate ['&']
        (((m.map (fun p => (p.1, some p.2))).filterMap
          (fun p => p.2.map (fun v => (p.1, v)))).map
            (fun p => p.1 ++ '=' :: encodeURIComponent (scalarToString p.2))) = _
    rw [hfil]
  rw [henc]
  unfold decodeQueryString
  have hsplit : (List.intercalate ['&']
      (m.map (fun p => p.1 ++ '=' :: encodeURIComponent (scalarToString p.2)))).splitOn '&' =
      m.map (fun p => p.1 ++ '=' :: encodeURIComponent (scalarToString p.2)) := by
    apply List.splitOn_intercalate
    · intro l hl
      obtain ⟨p, hp, hpl⟩ := List.mem_map.mp hl
      rw [← hpl]
      intro hmem
      rcases List.mem_append.mp hmem with hmem | hmem
      · exact (hkeys p hp).1 hmem
      · rcases List.mem_cons.mp hmem with heq | hmem
        · exact absurd heq (by decide)
        · exact (encodeURIComponent_chars _ '&' hmem).1 rfl
    · intro hc
      exact hne (List.map_eq_nil_iff.mp hc)
  rw [hsplit]
  have hpoint : ∀ p ∈ m,
      decodePair ((p.1 ++ '=' :: encodeURIComponent (scalarToString p.2)).splitOn '=') =
        some (p.1, scalarToString p.2) := by
    intro p hp
    have hi : p.1 ++ '=' :: encodeURIComponent (scalarToString p.2) =
        List.intercalate ['='] [p.1, encodeURIComponent (scalarToString p.2)] := by
      simp [List.intercalate]
    have hsplit2 : (p.1 ++ '=' :: encodeURIComponent (scalarToString p.2)).splitOn '=' =
        [p.1, encodeURIComponent (scalarToString p.2)] := by
      rw [hi]
      apply List.splitOn_intercalate
      · intro l hl
        rcases List.mem_cons.mp hl with hle | hl
        · rw [hle]
          exact fun hmem => (hkeys p hp).2 hmem
        · rcases List.mem_cons.mp hl with hle | hl
          · rw [hle]
            exact fun hmem => (encodeURIComponent_chars _ '=' hmem).2 rfl
          · cases hl
      · exact List.cons_ne_nil _ _
    rw [hsplit2]
    rw [show decodePair [p.1, encodeURIComponent (scalarToString p.2)] =
      (decodeURIComponent (encodeURIComponent (scalarToString p.2))).map
        (fun w => (p.1, w)) from rfl]
    rw [decodeURIComponent_encodeURIComponent]
    rfl
  rw [mapOption_over_map (fun kvp => decodePair (kvp.splitOn '='))
    (fun p => p.1 ++ '=' :: encodeURIComponent (scalarToString p.2))
    (fun p => (p.1, scalarToString p.2)) m hpoint]
  rw [Option.map_some']
  rw [fromEntries_nodup]
  rw [List.map_map]
  exact hnodup

/-- Witness for C9 (amended) at a concrete one-entry mapping with a value
needing percent-encoding. -/
theorem decode_encode_queryString_roundtrip_witness :
    decodeQueryString (encodeQueryString
        ([(jstr "a", Scalar.str (jstr "b c"))].map (fun p => (p.1, some p.2)))) =
      some ([(jstr "a", Scalar.str (jstr "b c"))].map
        (fun p => (p.1, scalarToString p.2))) :=
  decode_encode_queryString_roundtrip [(jstr "a", Scalar.str (jstr "b c"))]
    (by decide) (by decide) (by decide)

/-- Counterexample for C10 as stated: in `"a&a=1"` the component `"a"` has no
`=`, yet the decoded mapping carries `"1"` (not `"undefined"`) under `"a"`,
because the later `"a=1"` component overrides it in `Object.fromEntries`. -/
theorem decodeQueryString_override_counterexample :
    decodeQueryString (jstr "a&a=1") = some [(jstr "a", jstr "1")] ∧
    lookupEntry [(jstr "a", jstr "1")] (jstr "a") ≠ some (jstr "undefined") := by
  refine ⟨by decide, by decide⟩

/-- C10 (amended): for every input string with an ampersand-separated
component containing no `=` character, provided no later component carries
the same key, the decoded mapping sends that component's text to the literal
string `"undefined"` (nine characters) rather than to an empty value or an
error; in particular `decodeQueryString ""` yields the single-entry mapping
from `""` to `"undefined"`. -/
theorem decodeQueryString_missing_value_is_undefined :
    (∀ (s : Str) (pre post : List Str) (c : Str) (entries : List (Str × Str)),
      s.splitOn '&' = pre ++ c :: post →
      '=' ∉ c →
      (∀ d ∈ post, (d.splitOn '=').headD [] ≠ c) →
      decodeQueryString s = some entries →
      lookupEntry entries c = some (jstr "undefined")) ∧
    decodeQueryString (jstr "") = some [(jstr "", jstr "undefined")] := by
  refine ⟨?_, by decide⟩
  intro s pre post c entries hsplit hnoeq hkeys hdq
  unfold decodeQueryString at hdq
  rw [hsplit] at hdq
  cases hmo : mapOption (fun kvp => decodePair (kvp.splitOn '=')) (pre ++ c :: post) with
  | none => rw [hmo] at hdq; cases hdq
  | some es =>
    rw [hmo] at hdq
    rw [Option.map_some'] at hdq
    have hent : fromEntries es = entries := Option.some.inj hdq
    obtain ⟨r1, r2, hre, hm1, hm2⟩ :=
      mapOption_eq_some_split (fun kvp => decodePair (kvp.splitOn '=')) pre (c :: post) es hmo
    rw [mapOption] at hm2
    have hc1 : decodePair (c.splitOn '=') = some (c, jstr "undefined") := by
      rw [splitOn_no_occurrence c '=' hnoeq]
      rw [show decodePair [c] =
        (decodeURIComponent (jstr "undefined")).map (fun w => (c, w)) from rfl]
      rw [show decodeURIComponent (jstr "undefined") = some (jstr "undefined") from by decide]
      rfl
    rw [hc1] at hm2
    rw [Option.some_bind] at hm2
    cases hmp : mapOption (fun kvp => decodePair (kvp.splitOn '=')) post with
    | none => rw [hmp] at hm2; cases hm2
    | some rp =>
      rw [hmp] at hm2
      rw [Option.map_some'] at hm2
      have hr2 : (c, jstr "undefined") :: rp = r2 := Option.some.inj hm2
      have hrpkeys : ∀ q ∈ rp, q.1 ≠ c := by
        intro q hq
        obtain ⟨d, hd, hfd⟩ := mapOption_mem _ post rp hmp q hq
        have hkey := decodePair_key (d.splitOn '=') q (List.splitOnP_ne_nil _ d) hfd
        rw [hkey]
        exact hkeys d hd
      rw [← hent, lookupEntry_fromEntries]
      rw [hre, ← hr2]
      rw [lastAssign_append]
      show ((match lastAssign rp c with
        | some v => some v
        | none => if c == c then some (jstr "undefined") else none)).or
          (lastAssign r1 c) = _
      rw [lastAssign_eq_none rp c hrpkeys]
      rw [if_pos (by rw [beq_iff_eq])]
      rfl

/-- Witness for C10 (amended) at the empty input string. -/
theorem decodeQueryString_missing_value_is_undefined_witness :
    lookupEntry [(jstr "", jstr "undefined")] (jstr "") = some (jstr "undefined") :=
  decodeQueryString_missing_value_is_undefined.1 (jstr "") [] [] (jstr "")
    [(jstr "", jstr "undefined")] (by decide) (by decide) (by simp) (by decide)
